import Mathlib

/-!
# Verification of the focus coordinate model, resolvers and CLI flow

A shallow embedding of the Rust sources of `focus`:

* `src/focus/internals/src/lib/coordinate.rs` — `Label`, `Coordinate`,
  `CoordinateSet` with parsing, display and uniformity;
* `src/focus/internals/src/lib/coordinate_resolver/directory_resolver.rs` —
  `DirectoryResolver::resolve`;
* `src/focus/commands/src/cli/main.rs` — the `Sync` subcommand arm,
  `hold_lock_file` and `ensure_repo_compatibility`;
* `src/focus/commands/src/cli/git_helper.rs` — `read_config`.

Rust `String`/`&str` values are embedded as `List Char`; Rust's standard
string operations (`split_once`, `split`, `join`, `eq_ignore_ascii_case`)
are re-implemented here on `List Char` with the same semantics, and the
functions under verification are translated clause by clause from the
source files.
-/

deriving instance DecidableEq for Except

namespace Focus

/-- Coerce a Lean string literal to the `List Char` representation used for
Rust strings throughout this development. -/
def str (s : String) : List Char := s.data

/-- Rust `str::split_once(c)`: split at the first occurrence of the
character `c`, returning the parts before and after it, or `none` when `c`
does not occur. -/
def splitOnceChar (c : Char) : List Char → Option (List Char × List Char)
  | [] => none
  | x :: xs =>
    if x = c then some ([], xs)
    else (splitOnceChar c xs).map (fun p => (x :: p.1, p.2))

/-- Rust `str::split_once("//")`: split at the leftmost occurrence of the
two-character pattern `//`. -/
def splitOnce2Slash : List Char → Option (List Char × List Char)
  | x :: y :: xs =>
    if x = '/' ∧ y = '/' then some ([], xs)
    else (splitOnce2Slash (y :: xs)).map (fun p => (x :: p.1, p.2))
  | _ => none

/-- Rust `str::split(c)` collected to a `Vec`: the list of chunks between
occurrences of `c`.  As in Rust, the result always has at least one
element (`"".split(c)` yields `[""]`). -/
def splitChar (c : Char) : List Char → List (List Char)
  | [] => [[]]
  | x :: xs =>
    if x = c then [] :: splitChar c xs
    else
      match splitChar c xs with
      | [] => [[x]]
      | y :: ys => (x :: y) :: ys

/-- Rust `[String]::join(c)`: interleave the separator character between
the chunks. -/
def joinWith (c : Char) : List (List Char) → List Char
  | [] => []
  | [p] => p
  | p :: q :: qs => p ++ c :: joinWith c (q :: qs)

/-- `TargetName` from `coordinate.rs`: an explicit target name or the
`/...` ellipsis wildcard. -/
inductive TargetName where
  | Name (n : List Char)
  | Ellipsis
deriving DecidableEq, Repr

/-- `Label` from `coordinate.rs`: a Bazel label with an optional external
repository, the path components after `//`, and a target name. -/
structure Label where
  external_repository : Option (List Char)
  path_components : List (List Char)
  target_name : TargetName
deriving DecidableEq, Repr

/-- `impl Display for Label` (coordinate.rs lines 159–179): write `//`,
the path components joined by `/`, then `:{name}` for an explicit name or
`/...` for the ellipsis. -/
def Label.display (l : Label) : List Char :=
  str "//" ++ joinWith '/' l.path_components ++
    (match l.target_name with
     | TargetName.Name n => ':' :: n
     | TargetName.Ellipsis => str "/...")

/-- `LabelParseError` from `coordinate.rs`. -/
inductive LabelParseError where
  | NoTargetName
deriving DecidableEq, Repr

/-- The first `match` of `Label::from_str` (coordinate.rs lines 199–203):
split on `//`; an empty prefix (or no `//` at all) means no external
repository. -/
def parseExternal (s : List Char) : Option (List Char) × List Char :=
  match splitOnce2Slash s with
  | none => (none, s)
  | some (e, label) => if e = [] then (none, label) else (some e, label)

/-- The remainder of `Label::from_str` (coordinate.rs lines 205–230):
split the label on `/`, pop the last chunk; `...` gives the ellipsis, and
otherwise the chunk is split once on `:` to recover the last path
component and the target name (defaulting the name to the chunk itself
when there is no colon). -/
def parseLabelBody (ext : Option (List Char)) (label : List Char) :
    Except LabelParseError Label :=
  let comps := splitChar '/' label
  match comps.getLast? with
  | none => Except.error LabelParseError.NoTargetName
  | some t =>
    if t = str "..." then
      Except.ok ⟨ext, comps.dropLast, TargetName.Ellipsis⟩
    else
      match splitOnceChar ':' t with
      | some (lc, tn) =>
        Except.ok ⟨ext, comps.dropLast ++ [lc], TargetName.Name tn⟩
      | none =>
        Except.ok ⟨ext, comps.dropLast ++ [t], TargetName.Name t⟩

/-- `impl FromStr for Label` (coordinate.rs lines 195–231). -/
def Label.from_str (s : List Char) : Except LabelParseError Label :=
  let el := parseExternal s
  parseLabelBody el.1 el.2

/-- Rust `u8::to_ascii_lowercase` restricted to `char`s: map `A`–`Z` to
`a`–`z` and leave everything else unchanged. -/
def asciiLower (c : Char) : Char :=
  if 'A' ≤ c ∧ c ≤ 'Z' then Char.ofNat (c.toNat + 32) else c

/-- Rust `str::eq_ignore_ascii_case`: equal length and pointwise equality
after ASCII lowercasing. -/
def eqIgnoreAsciiCase : List Char → List Char → Bool
  | [], [] => true
  | a :: as, b :: bs => asciiLower a = asciiLower b && eqIgnoreAsciiCase as bs
  | _, _ => false

/-- `Coordinate` from `coordinate.rs` (lines 73–83): a Bazel label, a
directory, or a Pants package. -/
inductive Coordinate where
  | Bazel (l : Label)
  | Directory (d : List Char)
  | Pants (p : List Char)
deriving DecidableEq, Repr

/-- `CoordinateError` from `coordinate.rs` (lines 95–105). -/
inductive CoordinateError where
  | UnsupportedScheme (s : List Char)
  | TokenizationError
  | LabelError (e : LabelParseError)
deriving DecidableEq, Repr

/-- `impl TryFrom<&str> for Coordinate` (coordinate.rs lines 107–128):
split once on `:`; the prefix is compared ASCII-case-insensitively against
the three schemes; `bazel` payloads are parsed as labels, with label
errors converted by `#[from]`. -/
def Coordinate.try_from (value : List Char) : Except CoordinateError Coordinate :=
  match splitOnceChar ':' value with
  | some (scheme, rest) =>
    if eqIgnoreAsciiCase scheme (str "bazel") then
      match Label.from_str rest with
      | Except.ok label => Except.ok (Coordinate.Bazel label)
      | Except.error e => Except.error (CoordinateError.LabelError e)
    else if eqIgnoreAsciiCase scheme (str "directory") then
      Except.ok (Coordinate.Directory rest)
    else if eqIgnoreAsciiCase scheme (str "pants") then
      Except.ok (Coordinate.Pants rest)
    else
      Except.error (CoordinateError.UnsupportedScheme scheme)
  | none => Except.error CoordinateError.TokenizationError

/-- The scheme (enum variant) of a coordinate; used to state uniformity. -/
inductive Scheme where
  | bazel
  | directory
  | pants
deriving DecidableEq, Repr

/-- Which variant a `Coordinate` belongs to. -/
def Coordinate.scheme : Coordinate → Scheme
  | Coordinate.Bazel _ => Scheme.bazel
  | Coordinate.Directory _ => Scheme.directory
  | Coordinate.Pants _ => Scheme.pants

/-- Rust `HashSet<Coordinate>` is embedded as a duplicate-free list in
iteration order; `HashSet::insert` appends when the element is absent. -/
def hashSetInsert (c : Coordinate) (s : List Coordinate) : List Coordinate :=
  if c ∈ s then s else s ++ [c]

/-- The loop body of `CoordinateSet::determine_uniformity` (coordinate.rs
lines 27–33): bump the slot of the member's variant. -/
def uniformityStep (acc : Nat × Nat × Nat) (c : Coordinate) : Nat × Nat × Nat :=
  match c with
  | Coordinate.Bazel _ => (acc.1 + 1, acc.2.1, acc.2.2)
  | Coordinate.Directory _ => (acc.1, acc.2.1 + 1, acc.2.2)
  | Coordinate.Pants _ => (acc.1, acc.2.1, acc.2.2 + 1)

/-- `CoordinateSet::determine_uniformity` (coordinate.rs lines 24–37):
count members by variant into a three-slot array and decide whether fewer
than two slots are populated. -/
def determine_uniformity (set : List Coordinate) : Bool :=
  let counts : Nat × Nat × Nat := set.foldl uniformityStep (0, 0, 0)
  decide
    ((([counts.1, counts.2.1, counts.2.2].filter (fun n => decide (0 < n))).length) < 2)

/-- `CoordinateSet` from `coordinate.rs` (lines 9–13). -/
structure CoordinateSet where
  underlying : List Coordinate
  uniform : Bool
deriving DecidableEq, Repr

/-- `CoordinateSet::is_uniform` (coordinate.rs lines 20–22). -/
def CoordinateSet.is_uniform (s : CoordinateSet) : Bool := s.uniform

/-- `impl From<HashSet<Coordinate>> for CoordinateSet` (coordinate.rs
lines 40–48). -/
def CoordinateSet.fromSet (u : List Coordinate) : CoordinateSet :=
  ⟨u, determine_uniformity u⟩

/-- The loop of `impl TryFrom<&[String]> for CoordinateSet` (coordinate.rs
lines 53–63): parse each string, inserting successes into the set and
returning the first error. -/
def buildSet : List (List Char) → List Coordinate →
    Except CoordinateError (List Coordinate)
  | [], acc => Except.ok acc
  | s :: rest, acc =>
    match Coordinate.try_from s with
    | Except.ok c => buildSet rest (hashSetInsert c acc)
    | Except.error e => Except.error e

/-- `impl TryFrom<&[String]> for CoordinateSet` (coordinate.rs lines
50–71). -/
def CoordinateSet.tryFrom (coordinates : List (List Char)) :
    Except CoordinateError CoordinateSet :=
  (buildSet coordinates []).map (fun u => ⟨u, determine_uniformity u⟩)

/-- Modelled from the spec: `DependencyKey` (§3) is defined outside the
provided sources; its variants are `BazelPackage(Label)`,
`BazelBuildFile(Label)`, `Path(dir)` and `DummyForTesting`.  Only the
`Path` variant is exercised by the directory resolver. -/
inductive DependencyKey where
  | BazelPackage (l : Label)
  | BazelBuildFile (l : Label)
  | Path (dir : List Char)
  | DummyForTesting
deriving DecidableEq, Repr

/-- Modelled from the spec: `DependencyValue` (§3) is defined outside the
provided sources; it carries either a `Path` or a
`PackageInfo { deps, includes }`. -/
inductive DependencyValue where
  | Path (path : List Char)
  | PackageInfo (deps : List DependencyKey) (includes : List (List Char))
deriving DecidableEq, Repr

/-- Modelled from the spec: `CacheOptions` (§4.C) is defined outside the
provided sources; the directory resolver ignores it (`_cache_options`). -/
structure CacheOptions where
  break_on_missing_keys : Bool
deriving DecidableEq, Repr

/-- Modelled from the spec: a `ResolutionRequest` (§3) carries the target
set; the repository root plays no role in directory resolution. -/
structure ResolutionRequest where
  coordinate_set : CoordinateSet
deriving DecidableEq, Repr

/-- Modelled from the spec: a `ResolutionResult` (§3) is an ordered set of
paths plus a map from `DependencyKey` to `DependencyValue`.  The
`BTreeSet` is embedded as an ordered duplicate-free list and the
`BTreeMap` as a key-unique association list. -/
structure ResolutionResult where
  paths : List (List Char)
  package_deps : List (DependencyKey × DependencyValue)
deriving DecidableEq, Repr

/-- Strict lexicographic byte order on strings, as used by `BTreeSet`'s
`Ord` on paths. -/
def lexLt : List Char → List Char → Bool
  | [], [] => false
  | [], _ :: _ => true
  | _ :: _, [] => false
  | a :: as, b :: bs =>
    if a < b then true else if b < a then false else lexLt as bs

/-- `BTreeSet::insert`: insert into an ordered duplicate-free list. -/
def treeSetInsert (x : List Char) : List (List Char) → List (List Char)
  | [] => [x]
  | y :: ys =>
    if x = y then y :: ys
    else if lexLt x y then x :: y :: ys
    else y :: treeSetInsert x ys

/-- `BTreeMap` insertion: replace the value when the key is present,
append otherwise (the traversal order abstracts the tree order; the entry
set is what the claims are about). -/
def mapInsert (k : DependencyKey) (v : DependencyValue) :
    List (DependencyKey × DependencyValue) → List (DependencyKey × DependencyValue)
  | [] => [(k, v)]
  | (k1, v1) :: rest =>
    if k = k1 then (k, v) :: rest else (k1, v1) :: mapInsert k v rest

/-- The first statement of `DirectoryResolver::resolve`
(directory_resolver.rs lines 27–33): collect each `Directory` target's
path into a `BTreeSet`; any other variant hits `unreachable!`, embedded
here as `none`. -/
def collectPaths : List Coordinate → List (List Char) → Option (List (List Char))
  | [], acc => some acc
  | Coordinate.Directory d :: rest, acc => collectPaths rest (treeSetInsert d acc)
  | _ :: _, _ => none

/-- The second statement of `DirectoryResolver::resolve`
(directory_resolver.rs lines 34–50): collect, for each `Directory` target
`d`, the entry `(DependencyKey::Path d, DependencyValue::Path d)` into a
`BTreeMap`; any other variant hits `unreachable!`, embedded as `none`. -/
def collectDeps : List Coordinate → List (DependencyKey × DependencyValue) →
    Option (List (DependencyKey × DependencyValue))
  | [], acc => some acc
  | Coordinate.Directory d :: rest, acc =>
    collectDeps rest (mapInsert (DependencyKey.Path d) (DependencyValue.Path d) acc)
  | _ :: _, _ => none

/-- `DirectoryResolver::resolve` (directory_resolver.rs lines 21–56).  A
panic through `unreachable!` is embedded as `none`; the cache options are
received and ignored exactly as the `_cache_options` parameter is. -/
def DirectoryResolver.resolve (request : ResolutionRequest)
    (cacheOptions : CacheOptions) : Option ResolutionResult :=
  match collectPaths request.coordinate_set.underlying [] with
  | none => none
  | some paths =>
    match collectDeps request.coordinate_set.underlying [] with
    | none => none
    | some package_infos => some ⟨paths, package_infos⟩

/-- Errors surfaced by the CLI paths modelled here. -/
inductive CliError where
  | upgradeRequired (msg : List Char)
  | lockUnavailable
  | syncFailed
deriving DecidableEq, Repr

/-- The remediation message of `ensure_repo_compatibility` (main.rs lines
1011–1014), with the interpolated repository path elided. -/
def upgradeRemediation : List Char :=
  str "Repo needs to be upgraded. Please run `focus upgrade`"

/-- `ensure_repo_compatibility` (main.rs lines 1007–1018): bail with the
remediation message when `is_upgrade_required` reports true.  The outcome
of `is_upgrade_required` is the boolean input. -/
def ensure_repo_compatibility (upgradeRequired : Bool) : Except CliError Unit :=
  if upgradeRequired then
    Except.error (CliError.upgradeRequired upgradeRemediation)
  else Except.ok ()

/-- `hold_lock_file` (main.rs lines 593–596) modelled by its outcome:
either the lock on `.focus/focus.lock` is acquired or the call errors. -/
def hold_lock_file (lockOk : Bool) : Except CliError Unit :=
  if lockOk then Except.ok () else Except.error CliError.lockUnavailable

/-- Observable steps of the `Subcommand::Sync` arm, in execution order. -/
inductive SyncEvent where
  | checkCompat
  | acquireLock
  | runSync
  | releaseLock
deriving DecidableEq, Repr

/-- The `Subcommand::Sync` arm of `run_subcommand` (main.rs lines
655–666): `ensure_repo_compatibility(&sparse_repo)?`, then
`hold_lock_file(&sparse_repo)?`, then `operation::sync::run(..)?`.  The
three boolean inputs stand for the outcomes of the migration probe, the
lock acquisition and the sync operation; the returned trace records the
steps actually performed, with `releaseLock` emitted on every exit from
the scope of the lock guard. -/
def syncSubcommand (upgradeRequired lockOk syncOk : Bool) :
    Except CliError Nat × List SyncEvent :=
  let log := [SyncEvent.checkCompat]
  match ensure_repo_compatibility upgradeRequired with
  | Except.error e => (Except.error e, log)
  | Except.ok _ =>
    match hold_lock_file lockOk with
    | Except.error e => (Except.error e, log)
    | Except.ok _ =>
      let log := log ++ [SyncEvent.acquireLock, SyncEvent.runSync]
      if syncOk then (Except.ok 0, log ++ [SyncEvent.releaseLock])
      else (Except.error CliError.syncFailed, log ++ [SyncEvent.releaseLock])

/-- Modelled from the spec: the `Sandbox` of §4.I is defined outside the
provided sources.  What matters for `read_config` is the captured stdout
stream of the constructed command, which `read_to_string` returns without
running anything (`none` embeds a failing read). -/
structure Sandbox where
  capturedStdout : Option (List Char)
deriving DecidableEq, Repr

/-- A constructed (not yet executed) `std::process::Command`. -/
structure GitCommand where
  program : List Char
  args : List (List Char)
deriving DecidableEq, Repr

/-- Modelled from the spec: `SandboxCommand` (§4.I) is defined outside the
provided sources; it captures the child's output streams in the sandbox
and streams them back to callers on demand. -/
structure SandboxCommand where
  sandbox : Sandbox
deriving DecidableEq, Repr

/-- Modelled from the spec: `SandboxCommand::read_to_string` on the stdout
stream returns whatever the sandbox has captured for it; it does not spawn
the command. -/
def SandboxCommand.read_to_string (scmd : SandboxCommand) :
    Except (List Char) (List Char) :=
  match scmd.sandbox.capturedStdout with
  | some s => Except.ok s
  | none => Except.error (str "failed to read captured stdout")

/-- `git_command` (git_helper.rs lines 16–18): construct a `git` command
and its sandbox wrapper; nothing is executed. -/
def git_command (sandbox : Sandbox) : GitCommand × SandboxCommand :=
  (⟨str "git", []⟩, ⟨sandbox⟩)

/-- `read_config` (git_helper.rs lines 35–41): build the command pair,
read the captured stdout into a string (attaching the key to the error
context), and return it.  The extra `invocations` argument is the log of
git invocations actually executed so far; `read_config` never runs the
command it builds, so the log passes through unchanged. -/
def read_config (repo_path key : List Char) (sandbox : Sandbox)
    (invocations : List (List Char)) :
    Except (List Char) (List Char) × List (List Char) :=
  let cs := git_command sandbox
  match cs.2.read_to_string with
  | Except.ok s => (Except.ok s, invocations)
  | Except.error e =>
    (Except.error (str "reading config key " ++ key ++ str ": " ++ e), invocations)

theorem splitOnceChar_eq_none_iff (c : Char) (s : List Char) :
    splitOnceChar c s = none ↔ c ∉ s := by
  induction s with
  | nil => simp [splitOnceChar]
  | cons x xs ih =>
    by_cases hx : x = c
    · subst hx
      simp [splitOnceChar]
    · simp only [splitOnceChar, if_neg hx, Option.map_eq_none']
      rw [ih]
      constructor
      · intro h hm
        rcases List.mem_cons.mp hm with h1 | h1
        · exact hx h1.symm
        · exact h h1
      · intro h hm
        exact h (List.mem_cons_of_mem _ hm)

theorem splitOnceChar_append (c : Char) (a b : List Char) (h : c ∉ a) :
    splitOnceChar c (a ++ c :: b) = some (a, b) := by
  induction a with
  | nil => simp [splitOnceChar]
  | cons x a ih =>
    have hx : ¬x = c := fun hc => h (List.mem_cons.mpr (Or.inl hc.symm))
    have h2 : c ∉ a := fun hm => h (List.mem_cons_of_mem _ hm)
    simp only [List.cons_append, splitOnceChar, if_neg hx, List.append_eq, ih h2,
      Option.map_some']

theorem splitOnce2Slash_cons2 (s : List Char) :
    splitOnce2Slash ('/' :: '/' :: s) = some ([], s) := by
  simp [splitOnce2Slash]

theorem splitOnce2Slash_cons_cons (x y : Char) (xs : List Char) :
    splitOnce2Slash (x :: y :: xs) =
      if x = '/' ∧ y = '/' then some ([], xs)
      else (splitOnce2Slash (y :: xs)).map (fun p => (x :: p.1, p.2)) := by
  simp [splitOnce2Slash]

theorem splitOnce2Slash_extend (e rest : List Char)
    (h : splitOnce2Slash (e ++ ['/']) = none) :
    splitOnce2Slash (e ++ '/' :: '/' :: rest) = some (e, rest) := by
  induction e with
  | nil => simpa using splitOnce2Slash_cons2 rest
  | cons x e ih =>
    cases e with
    | nil =>
      have hx : ¬(x = '/' ∧ ('/' : Char) = '/') := by
        intro hc
        rw [List.cons_append, List.nil_append, splitOnce2Slash_cons_cons] at h
        simp [hc] at h
      rw [List.cons_append, List.nil_append, splitOnce2Slash_cons_cons,
        if_neg hx, splitOnce2Slash_cons2]
      rfl
    | cons y e2 =>
      rw [List.cons_append, List.cons_append, splitOnce2Slash_cons_cons] at h
      by_cases hxy : x = '/' ∧ y = '/'
      · rw [if_pos hxy] at h
        exact absurd h (by simp)
      · rw [if_neg hxy, Option.map_eq_none'] at h
        have ih2 := ih (by rw [List.cons_append]; exact h)
        rw [List.cons_append, List.cons_append, splitOnce2Slash_cons_cons, if_neg hxy]
        rw [List.cons_append] at ih2
        rw [ih2]
        rfl

theorem splitChar_ne_nil (c : Char) (s : List Char) : splitChar c s ≠ [] := by
  induction s with
  | nil => simp [splitChar]
  | cons x xs ih =>
    by_cases hx : x = c
    · simp [splitChar, hx]
    · simp only [splitChar, if_neg hx]
      cases h : splitChar c xs <;> simp

theorem splitChar_no_sep (c : Char) (a : List Char) (h : c ∉ a) :
    splitChar c a = [a] := by
  induction a with
  | nil => rfl
  | cons x a ih =>
    have hx : ¬x = c := fun hc => h (List.mem_cons.mpr (Or.inl hc.symm))
    have h2 : c ∉ a := fun hm => h (List.mem_cons_of_mem _ hm)
    simp only [splitChar, if_neg hx, ih h2]

theorem splitChar_append (c : Char) (a t : List Char) (h : c ∉ a) :
    splitChar c (a ++ c :: t) = a :: splitChar c t := by
  induction a with
  | nil => simp [splitChar]
  | cons x a ih =>
    have hx : ¬x = c := fun hc => h (List.mem_cons.mpr (Or.inl hc.symm))
    have h2 : c ∉ a := fun hm => h (List.mem_cons_of_mem _ hm)
    simp only [List.cons_append, splitChar, if_neg hx, List.append_eq, ih h2]

theorem joinWith_cons (c : Char) (p : List Char) (q : List (List Char))
    (h : q ≠ []) : joinWith c (p :: q) = p ++ c :: joinWith c q := by
  cases q with
  | nil => cases h rfl
  | cons b q2 => rfl

theorem splitChar_joinWith (c : Char) (ps : List (List Char)) (hne : ps ≠ [])
    (h : ∀ p ∈ ps, c ∉ p) : splitChar c (joinWith c ps) = ps := by
  induction ps with
  | nil => cases hne rfl
  | cons a tail ih =>
    cases tail with
    | nil => exact splitChar_no_sep c a (h a (List.mem_cons_self a []))
    | cons b tail2 =>
      rw [joinWith_cons c a (b :: tail2) (by simp)]
      rw [splitChar_append c a _ (h a (List.mem_cons_self a _))]
      rw [ih (by simp) (fun p hp => h p (List.mem_cons_of_mem _ hp))]

theorem joinWith_concat_append (c : Char) (ini : List (List Char))
    (a b : List Char) :
    joinWith c (ini ++ [a]) ++ b = joinWith c (ini ++ [a ++ b]) := by
  induction ini with
  | nil => rfl
  | cons p ini ih =>
    rw [List.cons_append, joinWith_cons c p _ (by simp), List.cons_append,
      joinWith_cons c p _ (by simp), List.append_assoc, List.cons_append, ih]

theorem joinWith_concat (c : Char) (ps : List (List Char)) (q : List Char)
    (hne : ps ≠ []) :
    joinWith c ps ++ c :: q = joinWith c (ps ++ [q]) := by
  induction ps with
  | nil => cases hne rfl
  | cons a tail ih =>
    cases tail with
    | nil => rfl
    | cons b tail2 =>
      rw [joinWith_cons c a (b :: tail2) (by simp), List.cons_append,
        joinWith_cons c a _ (by simp), List.append_assoc, List.cons_append,
        ih (by simp)]

theorem parseExternal_slashslash (body : List Char) :
    parseExternal ('/' :: '/' :: body) = (none, body) := by
  simp [parseExternal, splitOnce2Slash_cons2]

theorem from_str_display_noext (ini : List (List Char)) (lst : List Char)
    (tn : TargetName)
    (hcomp : ∀ p ∈ ini ++ [lst], '/' ∉ p)
    (hname : ∀ n, tn = TargetName.Name n → '/' ∉ n ∧ ':' ∉ lst) :
    Label.from_str (Label.display ⟨none, ini ++ [lst], tn⟩) =
      Except.ok ⟨none, ini ++ [lst], tn⟩ := by
  cases tn with
  | Ellipsis =>
    have hdisp : Label.display ⟨none, ini ++ [lst], TargetName.Ellipsis⟩ =
        '/' :: '/' :: joinWith '/' ((ini ++ [lst]) ++ [str "..."]) := by
      show '/' :: '/' :: (joinWith '/' (ini ++ [lst]) ++ '/' :: str "...") = _
      rw [joinWith_concat '/' (ini ++ [lst]) (str "...") (by simp)]
    have hsplit : splitChar '/' (joinWith '/' ((ini ++ [lst]) ++ [str "..."])) =
        (ini ++ [lst]) ++ [str "..."] := by
      apply splitChar_joinWith _ _ (by simp)
      intro p hp
      rcases List.mem_append.mp hp with h1 | h1
      · exact hcomp p h1
      · rw [List.mem_singleton.mp h1]
        decide
    show parseLabelBody (parseExternal _).1 (parseExternal _).2 = _
    rw [hdisp, parseExternal_slashslash]
    simp only [parseLabelBody, hsplit, List.getLast?_concat, List.dropLast_concat]
    simp only [if_true]
  | Name n =>
    rcases hname n rfl with ⟨hn, hlast⟩
    have hdisp : Label.display ⟨none, ini ++ [lst], TargetName.Name n⟩ =
        '/' :: '/' :: joinWith '/' (ini ++ [lst ++ ':' :: n]) := by
      show '/' :: '/' :: (joinWith '/' (ini ++ [lst]) ++ ':' :: n) = _
      rw [joinWith_concat_append]
    have hsplit : splitChar '/' (joinWith '/' (ini ++ [lst ++ ':' :: n])) =
        ini ++ [lst ++ ':' :: n] := by
      apply splitChar_joinWith _ _ (by simp)
      intro p hp
      rcases List.mem_append.mp hp with h1 | h1
      · exact hcomp p (List.mem_append.mpr (Or.inl h1))
      · rw [List.mem_singleton.mp h1]
        intro hm
        rcases List.mem_append.mp hm with h2 | h2
        · exact hcomp lst (List.mem_append.mpr (Or.inr (List.mem_singleton.mpr rfl))) h2
        · rcases List.mem_cons.mp h2 with h3 | h3
          · exact absurd h3 (by decide)
          · exact hn h3
    have hnotdots : ¬(lst ++ ':' :: n = str "...") := by
      intro he
      have hc : (':' : Char) ∈ lst ++ ':' :: n :=
        List.mem_append.mpr (Or.inr (List.mem_cons_self _ _))
      rw [he] at hc
      exact absurd hc (by decide)
    show parseLabelBody (parseExternal _).1 (parseExternal _).2 = _
    rw [hdisp, parseExternal_slashslash]
    simp only [parseLabelBody, hsplit, List.getLast?_concat, List.dropLast_concat,
      if_neg hnotdots, splitOnceChar_append ':' lst n hlast]

/-- Counterexamples to the unrestricted round-trip: a label with an
external repository (the display omits it), an empty component list, a
`/` inside a target name, a `:` inside the last path component, and a `/`
inside a path component all fail to round-trip. -/
theorem label_roundtrip_fails :
    Label.from_str (Label.display ⟨some (str "@foo"), [str "bar"], TargetName.Name (str "qux")⟩) ≠
      Except.ok ⟨some (str "@foo"), [str "bar"], TargetName.Name (str "qux")⟩ ∧
    Label.from_str (Label.display ⟨none, [], TargetName.Name (str "foo")⟩) ≠
      Except.ok ⟨none, [], TargetName.Name (str "foo")⟩ ∧
    Label.from_str (Label.display ⟨none, [str "a"], TargetName.Name (str "x/y")⟩) ≠
      Except.ok ⟨none, [str "a"], TargetName.Name (str "x/y")⟩ ∧
    Label.from_str (Label.display ⟨none, [str "a:b"], TargetName.Name (str "n")⟩) ≠
      Except.ok ⟨none, [str "a:b"], TargetName.Name (str "n")⟩ ∧
    Label.from_str (Label.display ⟨none, [str "a/b"], TargetName.Ellipsis⟩) ≠
      Except.ok ⟨none, [str "a/b"], TargetName.Ellipsis⟩ := by
  decide

/-- C1 (amended): for every Label `L` with no external repository, a
nonempty list of path components none of which contains `/`, and — when
the target name is an explicit `Name n` — no `/` in `n` and no `:` in the
last path component, displaying `L` and parsing the result yields `L`. -/
theorem label_parse_display_roundtrip (L : Label)
    (hext : L.external_repository = none)
    (hne : L.path_components ≠ [])
    (hcomp : ∀ p ∈ L.path_components, '/' ∉ p)
    (hname : ∀ n, L.target_name = TargetName.Name n →
      '/' ∉ n ∧ ':' ∉ L.path_components.getLast hne) :
    Label.from_str (Label.display L) = Except.ok L := by
  obtain ⟨ext, pc, tn⟩ := L
  simp only at hext hne hcomp hname
  subst hext
  have hpc : pc.dropLast ++ [pc.getLast hne] = pc := List.dropLast_append_getLast hne
  rw [← hpc]
  apply from_str_display_noext
  · intro p hp
    exact hcomp p (by rw [← hpc] at *; exact hp)
  · intro n hn
    rcases hname n hn with ⟨h1, h2⟩
    refine ⟨h1, ?_⟩
    exact h2

/-- Witness for the amended C1 theorem at the concrete label
`//foo/bar/...`. -/
theorem label_parse_display_roundtrip_witness :
    Label.from_str (Label.display ⟨none, [str "foo", str "bar"], TargetName.Ellipsis⟩) =
      Except.ok ⟨none, [str "foo", str "bar"], TargetName.Ellipsis⟩ :=
  label_parse_display_roundtrip ⟨none, [str "foo", str "bar"], TargetName.Ellipsis⟩
    rfl (by decide) (by decide) (fun n h => nomatch h)

theorem try_from_ne_tokenization_of_some (s scheme rest : List Char)
    (hsp : splitOnceChar ':' s = some (scheme, rest)) :
    Coordinate.try_from s ≠ Except.error CoordinateError.TokenizationError := by
  simp only [Coordinate.try_from, hsp]
  by_cases h1 : eqIgnoreAsciiCase scheme (str "bazel") = true
  · simp only [h1, if_true]
    cases hl : Label.from_str rest <;> simp
  · simp only [Bool.not_eq_true] at h1
    simp only [h1, Bool.false_eq_true, if_false]
    by_cases h2 : eqIgnoreAsciiCase scheme (str "directory") = true
    · simp [h2]
    · simp only [Bool.not_eq_true] at h2
      simp only [h2, Bool.false_eq_true, if_false]
      by_cases h3 : eqIgnoreAsciiCase scheme (str "pants") = true
      · simp [h3]
      · simp only [Bool.not_eq_true] at h3
        simp [h3]

/-- C4: `Coordinate::try_from` yields the tokenization error exactly when
the input has no `:`; with a `:` present, a first-colon prefix matching
none of `bazel`/`directory`/`pants` (ASCII case-insensitively) yields
`UnsupportedScheme(prefix)`; concretely, `bogus:whatever` gives
`UnsupportedScheme("bogus")` and `okay` gives the tokenization error. -/
theorem coordinate_try_from_errors :
    (∀ s : List Char,
      Coordinate.try_from s = Except.error CoordinateError.TokenizationError ↔ ':' ∉ s) ∧
    (∀ s scheme rest : List Char, splitOnceChar ':' s = some (scheme, rest) →
      eqIgnoreAsciiCase scheme (str "bazel") = false →
      eqIgnoreAsciiCase scheme (str "directory") = false →
      eqIgnoreAsciiCase scheme (str "pants") = false →
      Coordinate.try_from s = Except.error (CoordinateError.UnsupportedScheme scheme)) ∧
    Coordinate.try_from (str "bogus:whatever") =
      Except.error (CoordinateError.UnsupportedScheme (str "bogus")) ∧
    Coordinate.try_from (str "okay") = Except.error CoordinateError.TokenizationError := by
  refine ⟨?_, ?_, by decide, by decide⟩
  · intro s
    constructor
    · intro h
      rcases hsp : splitOnceChar ':' s with _ | p
      · exact (splitOnceChar_eq_none_iff ':' s).mp hsp
      · obtain ⟨scheme, rest⟩ := p
        exact absurd h (try_from_ne_tokenization_of_some s scheme rest hsp)
    · intro h
      have hsp : splitOnceChar ':' s = none := (splitOnceChar_eq_none_iff ':' s).mpr h
      simp [Coordinate.try_from, hsp]
  · intro s scheme rest hsp h1 h2 h3
    simp [Coordinate.try_from, hsp, h1, h2, h3]

/-- Witness for C4: a concrete unsupported scheme derived from the general
clause. -/
theorem coordinate_try_from_errors_witness :
    Coordinate.try_from (str "x:y") =
      Except.error (CoordinateError.UnsupportedScheme (str "x")) :=
  coordinate_try_from_errors.2.1 (str "x:y") (str "x") (str "y")
    (by decide) (by decide) (by decide) (by decide)

/-- C5: parsing `bazel://foo/bar/...` succeeds with the expected label and
displaying that label gives `//foo/bar/...`. -/
theorem bazel_ellipsis_parse_and_display :
    Coordinate.try_from (str "bazel://foo/bar/...") =
      Except.ok (Coordinate.Bazel ⟨none, [str "foo", str "bar"], TargetName.Ellipsis⟩) ∧
    Label.display ⟨none, [str "foo", str "bar"], TargetName.Ellipsis⟩ =
      str "//foo/bar/..." := by
  decide

theorem parseLabelBody_shape (ext : Option (List Char)) (label : List Char) :
    ∃ pc tn, parseLabelBody ext label = Except.ok ⟨ext, pc, tn⟩ := by
  rcases h : (splitChar '/' label).getLast? with _ | t
  · exact absurd (List.getLast?_eq_none_iff.mp h) (splitChar_ne_nil '/' label)
  · by_cases hd : t = str "..."
    · refine ⟨(splitChar '/' label).dropLast, TargetName.Ellipsis, ?_⟩
      simp only [parseLabelBody, h, if_pos hd]
    · cases hsp : splitOnceChar ':' t with
      | none =>
        refine ⟨(splitChar '/' label).dropLast ++ [t], TargetName.Name t, ?_⟩
        simp only [parseLabelBody, h, if_neg hd, hsp]
      | some p =>
        obtain ⟨lc, tn⟩ := p
        refine ⟨(splitChar '/' label).dropLast ++ [lc], TargetName.Name tn, ?_⟩
        simp only [parseLabelBody, h, if_neg hd, hsp]

theorem from_str_eq_parseLabelBody (s : List Char) :
    Label.from_str s = parseLabelBody (parseExternal s).1 (parseExternal s).2 := rfl

/-- C6: label parsing is total (never an error); a label whose last
`/`-chunk is `...` parses to the ellipsis target; a chunk without a colon
becomes both the last path component and the inferred target name; text
before the first `//` becomes the external repository; a leading `//` is
optional. -/
theorem label_from_str_total_and_shape :
    (∀ s : List Char, ∃ l, Label.from_str s = Except.ok l) ∧
    (∀ s : List Char, splitOnce2Slash s = none →
      Label.from_str ('/' :: '/' :: s) = Label.from_str s) ∧
    (∀ e rest : List Char, e ≠ [] → splitOnce2Slash (e ++ ['/']) = none →
      ∃ l, Label.from_str (e ++ '/' :: '/' :: rest) = Except.ok l ∧
        l.external_repository = some e) ∧
    (∀ s t : List Char, (splitChar '/' (parseExternal s).2).getLast? = some t →
      t = str "..." →
      Label.from_str s = Except.ok
        ⟨(parseExternal s).1, (splitChar '/' (parseExternal s).2).dropLast,
          TargetName.Ellipsis⟩) ∧
    (∀ s t : List Char, (splitChar '/' (parseExternal s).2).getLast? = some t →
      t ≠ str "..." → ':' ∉ t →
      Label.from_str s = Except.ok
        ⟨(parseExternal s).1, (splitChar '/' (parseExternal s).2).dropLast ++ [t],
          TargetName.Name t⟩) := by
  refine ⟨?_, ?_, ?_, ?_, ?_⟩
  · intro s
    obtain ⟨pc, tn, h⟩ := parseLabelBody_shape (parseExternal s).1 (parseExternal s).2
    exact ⟨_, h⟩
  · intro s h
    rw [from_str_eq_parseLabelBody, from_str_eq_parseLabelBody,
      parseExternal_slashslash]
    simp [parseExternal, h]
  · intro e rest he h
    have hx : parseExternal (e ++ '/' :: '/' :: rest) = (some e, rest) := by
      simp [parseExternal, splitOnce2Slash_extend e rest h, he]
    obtain ⟨pc, tn, hb⟩ := parseLabelBody_shape (some e) rest
    refine ⟨⟨some e, pc, tn⟩, ?_, rfl⟩
    rw [from_str_eq_parseLabelBody, hx]
    exact hb
  · intro s t h hd
    rw [from_str_eq_parseLabelBody]
    simp only [parseLabelBody, h, if_pos hd]
  · intro s t h hd hc
    have hsp : splitOnceChar ':' t = none := (splitOnceChar_eq_none_iff ':' t).mpr hc
    rw [from_str_eq_parseLabelBody]
    simp only [parseLabelBody, h, if_neg hd, hsp]

/-- Witness for C6 at concrete inputs: totality at `a:b`, the optional
leading `//`, a concrete external repository, the ellipsis form and the
inferred target name. -/
theorem label_from_str_total_and_shape_witness :
    (∃ l, Label.from_str (str "a:b") = Except.ok l) ∧
    Label.from_str ('/' :: '/' :: str "foo") = Label.from_str (str "foo") ∧
    (∃ l, Label.from_str (str "@x" ++ '/' :: '/' :: str "a") = Except.ok l ∧
      l.external_repository = some (str "@x")) ∧
    Label.from_str (str "//foo/bar/...") = Except.ok
      ⟨(parseExternal (str "//foo/bar/...")).1,
        (splitChar '/' (parseExternal (str "//foo/bar/...")).2).dropLast,
        TargetName.Ellipsis⟩ ∧
    Label.from_str (str "//foo") = Except.ok
      ⟨(parseExternal (str "//foo")).1,
        (splitChar '/' (parseExternal (str "//foo")).2).dropLast ++ [str "foo"],
        TargetName.Name (str "foo")⟩ :=
  ⟨label_from_str_total_and_shape.1 (str "a:b"),
   label_from_str_total_and_shape.2.1 (str "foo") (by decide),
   label_from_str_total_and_shape.2.2.1 (str "@x") (str "a") (by decide) (by decide),
   label_from_str_total_and_shape.2.2.2.1 (str "//foo/bar/...") (str "...")
     (by decide) (by decide),
   label_from_str_total_and_shape.2.2.2.2 (str "//foo") (str "foo")
     (by decide) (by decide) (by decide)⟩

/-- The number of members of a given variant. -/
def schemeCount (u : List Coordinate) (s : Scheme) : Nat :=
  u.countP (fun x => decide (Coordinate.scheme x = s))

theorem foldl_uniformityStep (l : List Coordinate) : ∀ a b c : Nat,
    l.foldl uniformityStep (a, b, c) =
      (a + schemeCount l Scheme.bazel, b + schemeCount l Scheme.directory,
        c + schemeCount l Scheme.pants) := by
  induction l with
  | nil => intro a b c; simp [schemeCount]
  | cons x l ih =>
    intro a b c
    cases x with
    | Bazel lab =>
      rw [List.foldl_cons]
      show List.foldl uniformityStep (a + 1, b, c) l = _
      rw [ih]
      simp only [schemeCount, List.countP_cons, Coordinate.scheme, Prod.mk.injEq]
      refine ⟨?_, ?_, ?_⟩ <;> simp <;> omega
    | Directory d =>
      rw [List.foldl_cons]
      show List.foldl uniformityStep (a, b + 1, c) l = _
      rw [ih]
      simp only [schemeCount, List.countP_cons, Coordinate.scheme, Prod.mk.injEq]
      refine ⟨?_, ?_, ?_⟩ <;> simp <;> omega
    | Pants p =>
      rw [List.foldl_cons]
      show List.foldl uniformityStep (a, b, c + 1) l = _
      rw [ih]
      simp only [schemeCount, List.countP_cons, Coordinate.scheme, Prod.mk.injEq]
      refine ⟨?_, ?_, ?_⟩ <;> simp <;> omega

theorem filter_pos_length_lt_two (x y z : Nat) :
    (([x, y, z].filter (fun n => decide (0 < n))).length < 2) ↔
      ((x = 0 ∧ y = 0) ∨ (x = 0 ∧ z = 0) ∨ (y = 0 ∧ z = 0)) := by
  rcases Nat.eq_zero_or_pos x with rfl | hx <;>
    rcases Nat.eq_zero_or_pos y with rfl | hy <;>
      rcases Nat.eq_zero_or_pos z with rfl | hz <;>
        simp [List.filter, Nat.pos_iff_ne_zero, *] <;> omega

theorem schemeCount_pos_of_mem (u : List Coordinate) (a : Coordinate)
    (ha : a ∈ u) : 0 < schemeCount u (Coordinate.scheme a) :=
  List.countP_pos_iff.mpr ⟨a, ha, by simp⟩

theorem determine_uniformity_eq_true_iff (u : List Coordinate) :
    determine_uniformity u = true ↔
      ∀ a ∈ u, ∀ b ∈ u, Coordinate.scheme a = Coordinate.scheme b := by
  show decide _ = true ↔ _
  rw [decide_eq_true_eq, foldl_uniformityStep u 0 0 0]
  simp only [Nat.zero_add]
  rw [filter_pos_length_lt_two]
  constructor
  · intro h a ha b hb
    have hall : ∀ s1 s2 : Scheme, schemeCount u s1 = 0 → schemeCount u s2 = 0 →
        ∀ x ∈ u, Coordinate.scheme x ≠ s1 ∧ Coordinate.scheme x ≠ s2 := by
      intro s1 s2 h1 h2 x hx
      constructor
      · intro he
        have := schemeCount_pos_of_mem u x hx
        rw [he, h1] at this
        exact absurd this (by omega)
      · intro he
        have := schemeCount_pos_of_mem u x hx
        rw [he, h2] at this
        exact absurd this (by omega)
    rcases h with ⟨h1, h2⟩ | ⟨h1, h2⟩ | ⟨h1, h2⟩
    · rcases hall _ _ h1 h2 a ha with ⟨ha1, ha2⟩
      rcases hall _ _ h1 h2 b hb with ⟨hb1, hb2⟩
      cases hsa : Coordinate.scheme a <;> cases hsb : Coordinate.scheme b <;>
        simp_all
    · rcases hall _ _ h1 h2 a ha with ⟨ha1, ha2⟩
      rcases hall _ _ h1 h2 b hb with ⟨hb1, hb2⟩
      cases hsa : Coordinate.scheme a <;> cases hsb : Coordinate.scheme b <;>
        simp_all
    · rcases hall _ _ h1 h2 a ha with ⟨ha1, ha2⟩
      rcases hall _ _ h1 h2 b hb with ⟨hb1, hb2⟩
      cases hsa : Coordinate.scheme a <;> cases hsb : Coordinate.scheme b <;>
        simp_all
  · intro h
    cases u with
    | nil => simp [schemeCount]
    | cons a u2 =>
      have hcount : ∀ s : Scheme, s ≠ Coordinate.scheme a →
          schemeCount (a :: u2) s = 0 := by
        intro s hs
        refine List.countP_eq_zero.mpr ?_
        intro x hx
        have := h x hx a (List.mem_cons_self a u2)
        simp only [decide_eq_true_eq]
        rw [this]
        exact fun he => hs he.symm
      cases hsa : Coordinate.scheme a with
      | bazel =>
        refine Or.inr (Or.inr ⟨hcount _ ?_, hcount _ ?_⟩) <;> rw [hsa] <;> decide
      | directory =>
        refine Or.inr (Or.inl ⟨hcount _ ?_, hcount _ ?_⟩) <;> rw [hsa] <;> decide
      | pants =>
        refine Or.inl ⟨hcount _ ?_, hcount _ ?_⟩ <;> rw [hsa] <;> decide

/-- C2: the uniformity flag stored by both public constructors equals
`determine_uniformity` of the underlying set, the flag is true exactly
when all members share one variant, and the empty set is uniform. -/
theorem coordinate_set_uniformity :
    (∀ u : List Coordinate,
      (CoordinateSet.fromSet u).is_uniform = determine_uniformity u) ∧
    (∀ coords set, CoordinateSet.tryFrom coords = Except.ok set →
      set.uniform = determine_uniformity set.underlying) ∧
    (∀ u : List Coordinate, (CoordinateSet.fromSet u).is_uniform = true ↔
      ∀ a ∈ u, ∀ b ∈ u, Coordinate.scheme a = Coordinate.scheme b) ∧
    (CoordinateSet.fromSet []).is_uniform = true := by
  refine ⟨fun u => rfl, ?_, ?_, by decide⟩
  · intro coords set h
    unfold CoordinateSet.tryFrom at h
    cases hb : buildSet coords [] with
    | error e => rw [hb] at h; exact absurd h (by simp [Except.map])
    | ok u =>
      rw [hb] at h
      simp only [Except.map, Except.ok.injEq] at h
      rw [← h]
  · intro u
    exact determine_uniformity_eq_true_iff u

/-- Witness for C2 at a concrete one-element slice. -/
theorem coordinate_set_uniformity_witness :
    (CoordinateSet.mk [Coordinate.Directory (str "/foo")] true).uniform =
      determine_uniformity
        (CoordinateSet.mk [Coordinate.Directory (str "/foo")] true).underlying :=
  coordinate_set_uniformity.2.1 [str "directory:/foo"]
    (CoordinateSet.mk [Coordinate.Directory (str "/foo")] true) (by decide)

theorem treeSetInsert_mem (x a : List Char) (l : List (List Char)) :
    a ∈ treeSetInsert x l ↔ a = x ∨ a ∈ l := by
  induction l with
  | nil => simp [treeSetInsert]
  | cons y ys ih =>
    by_cases h1 : x = y
    · subst h1
      simp only [treeSetInsert, if_pos rfl]
      constructor
      · intro h
        exact Or.inr h
      · rintro (rfl | h)
        · exact List.mem_cons_self _ _
        · exact h
    · by_cases h2 : lexLt x y = true
      · simp only [treeSetInsert, if_neg h1, if_pos h2]
        simp [or_assoc]
      · simp only [treeSetInsert, if_neg h1, if_neg h2]
        simp only [List.mem_cons, ih]
        tauto

theorem mapInsert_mem (k : DependencyKey) (v : DependencyValue)
    (m : List (DependencyKey × DependencyValue))
    (hm : ∀ kv ∈ m, kv.1 = k → kv = (k, v))
    (kv : DependencyKey × DependencyValue) :
    kv ∈ mapInsert k v m ↔ kv = (k, v) ∨ kv ∈ m := by
  induction m with
  | nil => simp [mapInsert]
  | cons p rest ih =>
    obtain ⟨k1, v1⟩ := p
    by_cases h1 : k = k1
    · subst h1
      have hv : v1 = v := by
        have := hm (k, v1) (List.mem_cons_self _ _) rfl
        exact (Prod.mk.injEq _ _ _ _).mp this |>.2
      subst hv
      simp only [mapInsert, eq_self_iff_true, if_true, List.mem_cons]
      tauto
    · simp only [mapInsert, if_neg h1]
      simp only [List.mem_cons]
      rw [ih (fun kv2 h2 => hm kv2 (List.mem_cons_of_mem _ h2))]
      tauto

theorem collectPaths_all_dir (l : List Coordinate)
    (h : ∀ t ∈ l, ∃ d, t = Coordinate.Directory d) :
    ∀ acc, ∃ r, collectPaths l acc = some r ∧
      ∀ p, p ∈ r ↔ p ∈ acc ∨ Coordinate.Directory p ∈ l := by
  induction l with
  | nil =>
    intro acc
    exact ⟨acc, rfl, by simp⟩
  | cons t rest ih =>
    intro acc
    obtain ⟨d, rfl⟩ := h t (List.mem_cons_self _ _)
    obtain ⟨r, hr, hmem⟩ :=
      ih (fun t2 h2 => h t2 (List.mem_cons_of_mem _ h2)) (treeSetInsert d acc)
    refine ⟨r, hr, ?_⟩
    intro p
    rw [hmem p, treeSetInsert_mem]
    simp only [List.mem_cons, Coordinate.Directory.injEq]
    tauto

theorem collectPaths_has_other (l : List Coordinate)
    (h : ∃ t ∈ l, ∀ d, t ≠ Coordinate.Directory d) :
    ∀ acc, collectPaths l acc = none := by
  induction l with
  | nil =>
    rcases h with ⟨t, ht, _⟩
    exact absurd ht (List.not_mem_nil t)
  | cons t rest ih =>
    intro acc
    rcases h with ⟨t2, ht2, hnd⟩
    rcases List.mem_cons.mp ht2 with rfl | hmem
    · cases t2 with
      | Directory d => exact absurd rfl (hnd d)
      | Bazel lb => rfl
      | Pants p => rfl
    · cases t with
      | Directory d => exact ih ⟨t2, hmem, hnd⟩ (treeSetInsert d acc)
      | Bazel lb => rfl
      | Pants p => rfl

theorem collectDeps_all_dir (l : List Coordinate)
    (h : ∀ t ∈ l, ∃ d, t = Coordinate.Directory d) :
    ∀ acc, (∀ kv ∈ acc, ∃ d, kv = (DependencyKey.Path d, DependencyValue.Path d)) →
      ∃ m, collectDeps l acc = some m ∧
        ∀ kv, kv ∈ m ↔ kv ∈ acc ∨ ∃ d, Coordinate.Directory d ∈ l ∧
          kv = (DependencyKey.Path d, DependencyValue.Path d) := by
  induction l with
  | nil =>
    intro acc hg
    exact ⟨acc, rfl, by simp⟩
  | cons t rest ih =>
    intro acc hg
    obtain ⟨d, rfl⟩ := h t (List.mem_cons_self _ _)
    have hinv : ∀ kv ∈ acc, kv.1 = DependencyKey.Path d →
        kv = (DependencyKey.Path d, DependencyValue.Path d) := by
      intro kv hkv h1
      obtain ⟨d2, rfl⟩ := hg kv hkv
      simp only at h1
      have hd : d2 = d := by injection h1
      rw [hd]
    have hg2 : ∀ kv ∈ mapInsert (DependencyKey.Path d) (DependencyValue.Path d) acc,
        ∃ d2, kv = (DependencyKey.Path d2, DependencyValue.Path d2) := by
      intro kv hkv
      rw [mapInsert_mem _ _ acc hinv kv] at hkv
      rcases hkv with rfl | hkv
      · exact ⟨d, rfl⟩
      · exact hg kv hkv
    obtain ⟨m, hm, hmem⟩ :=
      ih (fun t2 h2 => h t2 (List.mem_cons_of_mem _ h2))
        (mapInsert (DependencyKey.Path d) (DependencyValue.Path d) acc) hg2
    refine ⟨m, hm, ?_⟩
    intro kv
    rw [hmem kv, mapInsert_mem _ _ acc hinv kv]
    simp only [List.mem_cons, Coordinate.Directory.injEq]
    constructor
    · rintro ((rfl | hkv) | ⟨d2, hd2, rfl⟩)
      · exact Or.inr ⟨d, Or.inl rfl, rfl⟩
      · exact Or.inl hkv
      · exact Or.inr ⟨d2, Or.inr hd2, rfl⟩
    · rintro (hkv | ⟨d2, (hd | hd2), rfl⟩)
      · exact Or.inl (Or.inr hkv)
      · rw [hd]
        exact Or.inl (Or.inl rfl)
      · exact Or.inr ⟨d2, hd2, rfl⟩

/-- C3: on a request whose coordinate set holds only `Directory` targets,
`DirectoryResolver::resolve` succeeds; the returned paths are exactly the
directories of the request, the package dependencies are exactly the
entries `Path(d) ↦ Path{d}` for those directories, and the result does
not depend on the cache options. -/
theorem directory_resolver_resolve_correct (request : ResolutionRequest)
    (co : CacheOptions)
    (h : ∀ t ∈ request.coordinate_set.underlying, ∃ d, t = Coordinate.Directory d) :
    ∃ r, DirectoryResolver.resolve request co = some r ∧
      (∀ p, p ∈ r.paths ↔
        Coordinate.Directory p ∈ request.coordinate_set.underlying) ∧
      (∀ kv, kv ∈ r.package_deps ↔ ∃ d,
        Coordinate.Directory d ∈ request.coordinate_set.underlying ∧
        kv = (DependencyKey.Path d, DependencyValue.Path d)) ∧
      (∀ co2 : CacheOptions,
        DirectoryResolver.resolve request co2 = DirectoryResolver.resolve request co) := by
  obtain ⟨r1, h1, hmem1⟩ := collectPaths_all_dir _ h []
  obtain ⟨m, hm, hmem2⟩ := collectDeps_all_dir _ h [] (by simp)
  refine ⟨⟨r1, m⟩, ?_, ?_, ?_, fun co2 => rfl⟩
  · unfold DirectoryResolver.resolve
    rw [h1, hm]
  · intro p
    simpa using hmem1 p
  · intro kv
    simpa using hmem2 kv

/-- Witness for C3 at the request of scenario S5. -/
theorem directory_resolver_resolve_correct_witness :
    ∃ r, DirectoryResolver.resolve
        ⟨CoordinateSet.fromSet [Coordinate.Directory (str "src/app"),
          Coordinate.Directory (str "src/lib")]⟩ ⟨false⟩ = some r ∧
      (∀ p, p ∈ r.paths ↔
        Coordinate.Directory p ∈ [Coordinate.Directory (str "src/app"),
          Coordinate.Directory (str "src/lib")]) ∧
      (∀ kv, kv ∈ r.package_deps ↔ ∃ d,
        Coordinate.Directory d ∈ [Coordinate.Directory (str "src/app"),
          Coordinate.Directory (str "src/lib")] ∧
        kv = (DependencyKey.Path d, DependencyValue.Path d)) ∧
      (∀ co2 : CacheOptions,
        DirectoryResolver.resolve
          ⟨CoordinateSet.fromSet [Coordinate.Directory (str "src/app"),
            Coordinate.Directory (str "src/lib")]⟩ co2 =
        DirectoryResolver.resolve
          ⟨CoordinateSet.fromSet [Coordinate.Directory (str "src/app"),
            Coordinate.Directory (str "src/lib")]⟩ ⟨false⟩) :=
  directory_resolver_resolve_correct
    ⟨CoordinateSet.fromSet [Coordinate.Directory (str "src/app"),
      Coordinate.Directory (str "src/lib")]⟩ ⟨false⟩
    (by
      intro t ht
      simp only [CoordinateSet.fromSet, List.mem_cons, List.not_mem_nil,
        or_false] at ht
      rcases ht with rfl | rfl
      · exact ⟨str "src/app", rfl⟩
      · exact ⟨str "src/lib", rfl⟩)

/-- C10: `DirectoryResolver::resolve` hits `unreachable!` (embedded as
`none`) whenever the request holds a non-`Directory` target, and succeeds
whenever every target is a `Directory`. -/
theorem directory_resolver_panic_iff (request : ResolutionRequest)
    (co : CacheOptions) :
    ((∃ t ∈ request.coordinate_set.underlying, ∀ d, t ≠ Coordinate.Directory d) →
      DirectoryResolver.resolve request co = none) ∧
    ((∀ t ∈ request.coordinate_set.underlying, ∃ d, t = Coordinate.Directory d) →
      (DirectoryResolver.resolve request co).isSome = true) := by
  constructor
  · intro h
    unfold DirectoryResolver.resolve
    rw [collectPaths_has_other _ h []]
  · intro h
    obtain ⟨r1, h1, _⟩ := collectPaths_all_dir _ h []
    obtain ⟨m, hm, _⟩ := collectDeps_all_dir _ h [] (by simp)
    unfold DirectoryResolver.resolve
    rw [h1, hm]
    rfl

/-- Witness for C10: a request with a Bazel target panics, a directory-only
request does not. -/
theorem directory_resolver_panic_iff_witness :
    DirectoryResolver.resolve
      ⟨CoordinateSet.fromSet [Coordinate.Bazel ⟨none, [], TargetName.Ellipsis⟩]⟩
      ⟨false⟩ = none ∧
    (DirectoryResolver.resolve
      ⟨CoordinateSet.fromSet [Coordinate.Directory (str "a")]⟩ ⟨false⟩).isSome = true :=
  ⟨(directory_resolver_panic_iff _ _).1
      ⟨Coordinate.Bazel ⟨none, [], TargetName.Ellipsis⟩,
        List.mem_cons_self _ _, fun d h => nomatch h⟩,
   (directory_resolver_panic_iff _ _).2
      (by
        intro t ht
        simp only [CoordinateSet.fromSet, List.mem_cons, List.not_mem_nil,
          or_false] at ht
        exact ⟨str "a", ht⟩)⟩

/-- C7 counterexample: on a successful sync invocation the compatibility
check is the first event of the trace, strictly before the lock
acquisition — the claimed ordering (lock before migration check) is
false. -/
theorem sync_lock_not_before_check :
    ¬ ((syncSubcommand false true true).2.indexOf SyncEvent.acquireLock <
        (syncSubcommand false true true).2.indexOf SyncEvent.checkCompat) := by
  decide

/-- C7 (amended): in every execution of the Sync arm the
migrations-required check strictly precedes the lock acquisition — so the
lock is acquired with the gate already evaluated, not the other way
around. -/
theorem sync_check_before_lock (u l s : Bool)
    (h : SyncEvent.acquireLock ∈ (syncSubcommand u l s).2) :
    (syncSubcommand u l s).2.indexOf SyncEvent.checkCompat <
      (syncSubcommand u l s).2.indexOf SyncEvent.acquireLock := by
  cases u <;> cases l <;> cases s <;> revert h <;> decide

/-- Witness for the amended C7 theorem on the all-success execution. -/
theorem sync_check_before_lock_witness :
    (syncSubcommand false true true).2.indexOf SyncEvent.checkCompat <
      (syncSubcommand false true true).2.indexOf SyncEvent.acquireLock :=
  sync_check_before_lock false true true (by decide)

/-- C8: whenever the migration probe reports that an upgrade is required,
the Sync arm returns the upgrade error carrying the remediation message,
never runs the sync operation (no mutation), and evaluates the gate
exactly once (no retry). -/
theorem sync_refuses_on_upgrade_required (l s : Bool) :
    (syncSubcommand true l s).1 =
      Except.error (CliError.upgradeRequired upgradeRemediation) ∧
    SyncEvent.runSync ∉ (syncSubcommand true l s).2 ∧
    (syncSubcommand true l s).2.count SyncEvent.checkCompat = 1 := by
  cases l <;> cases s <;> exact ⟨rfl, by decide, by decide⟩

/-- Witness for C8 with every later step notionally able to succeed. -/
theorem sync_refuses_on_upgrade_required_witness :
    (syncSubcommand true true true).1 =
      Except.error (CliError.upgradeRequired upgradeRemediation) ∧
    SyncEvent.runSync ∉ (syncSubcommand true true true).2 ∧
    (syncSubcommand true true true).2.count SyncEvent.checkCompat = 1 :=
  sync_refuses_on_upgrade_required true true

/-- C9: `read_config` executes no git invocation (the invocation log
passes through unchanged), returns the sandbox's captured stdout on
success, and its result is independent of the repository path
unconditionally and of the key whenever the captured stream is
readable. -/
theorem read_config_no_exec_and_independent :
    (∀ rp key sb inv, (read_config rp key sb inv).2 = inv) ∧
    (∀ rp key sb inv c, sb.capturedStdout = some c →
      (read_config rp key sb inv).1 = Except.ok c) ∧
    (∀ rp rp2 key sb inv, read_config rp key sb inv = read_config rp2 key sb inv) ∧
    (∀ rp rp2 key key2 sb inv c, sb.capturedStdout = some c →
      (read_config rp key sb inv).1 = (read_config rp2 key2 sb inv).1) := by
  have hok : ∀ (sb : Sandbox) (c : List Char), sb.capturedStdout = some c →
      (git_command sb).2.read_to_string = Except.ok c := by
    intro sb c h
    simp [SandboxCommand.read_to_string, git_command, h]
  refine ⟨?_, ?_, ?_, ?_⟩
  · intro rp key sb inv
    cases h : (git_command sb).2.read_to_string with
    | ok s => simp [read_config, h]
    | error e => simp [read_config, h]
  · intro rp key sb inv c h
    simp [read_config, hok sb c h]
  · intro rp rp2 key sb inv
    rfl
  · intro rp rp2 key key2 sb inv c h
    simp [read_config, hok sb c h]

/-- Witness for C9 at a concrete sandbox. -/
theorem read_config_no_exec_and_independent_witness :
    (read_config (str "/repo") (str "user.name") ⟨some (str "out")⟩ []).1 =
      Except.ok (str "out") ∧
    (read_config (str "/r1") (str "k1") ⟨some (str "out")⟩ []).1 =
      (read_config (str "/r2") (str "k2") ⟨some (str "out")⟩ []).1 :=
  ⟨read_config_no_exec_and_independent.2.1 (str "/repo") (str "user.name")
      ⟨some (str "out")⟩ [] (str "out") rfl,
   read_config_no_exec_and_independent.2.2.2 (str "/r1") (str "/r2") (str "k1")
      (str "k2") ⟨some (str "out")⟩ [] (str "out") rfl⟩

end Focus
